import Mathlib

/-!
Shallow embedding of the tool-orchestration conversation engine of
`src/src/clients/ollama_client.py` (class `OllamaMCPClient`) together with the
event type of `src/src/abstract/api_response.py` (`ChatResponse`).

The model capability (the Ollama chat stream) is represented by a script: a
list of model turns, each turn a list of stream parts carrying assistant text
and/or tool-call requests, exactly the shape the drive loop
(`_recursive_prompt`) consumes.  Provider sessions are pairs of a qualified
tool list and a `callTool` function returning either a textual result or an
error description, mirroring the MCP `ClientSession` surface the code uses.
Python dictionaries appear as insertion-ordered association lists, and
`str(tool_args)` is reproduced by `renderArgs`, the Python `str` rendering of
a dict of strings and integers.
-/

/-- Python-side JSON-ish argument values as they appear in `tool_args`:
strings and integers are the shapes the tools of `server/server.py` take. -/
inductive PyVal where
  | str (s : String)
  | num (n : Int)
deriving DecidableEq

/-- Tool-call arguments: a Python dict modelled as an insertion-ordered
association list from argument name to value. -/
abbrev Args := List (String × PyVal)

/-- Python `repr` of a value inside `str(dict)`: strings get single quotes,
integers print bare. -/
def renderVal : PyVal → String
  | .str s => "\x27" ++ s ++ "\x27"
  | .num n => toString n

/-- One `'key': value` entry of Python's `str(dict)` rendering. -/
def renderEntry (k : String) (v : PyVal) : String :=
  "\x27" ++ k ++ "\x27: " ++ renderVal v

/-- The comma-separated interior of Python's `str(dict)` rendering. -/
def renderEntries : Args → String
  | [] => ""
  | [(k, v)] => renderEntry k v
  | (k, v) :: rest => renderEntry k v ++ ", " ++ renderEntries rest

/-- Python's `str(tool_args)`: e.g. `{'amount': 5000, 'token': 'T1'}`. -/
def renderArgs (a : Args) : String :=
  "\x7b" ++ renderEntries a ++ "\x7d"

/-- First-match lookup in an association list; Python `d[k]` / `k in d`
semantics for dicts (which never hold duplicate keys). -/
def lookupKey {α : Type} : List (String × α) → String → Option α
  | [], _ => none
  | (k', v) :: rest, k => if k' = k then some v else lookupKey rest k

/-- Python `{**d, k: v}`: replace the value at `k` in place if the key is
present, otherwise append the binding at the end. -/
def dictSet : Args → String → PyVal → Args
  | [], k, v => [(k, v)]
  | (k', v') :: rest, k, v =>
    if k' = k then (k', v) :: rest else (k', v') :: dictSet rest k v

/-- Decidable check that `needle` occurs as a contiguous substring of
`haystack`; embeds Python's `needle in haystack` on strings. -/
def strContains (needle haystack : String) : Bool :=
  decide (needle.data <:+: haystack.data)

/-- An entry of the unified catalog: the `Tool.Function` the code builds in
`_connect_client`, with `parameters` as the field names of the declared
input schema (all the dispatch logic ever consults of it). -/
structure Tool where
  name : String
  description : String
  parameters : List String
deriving DecidableEq

/-- One provider session as stored in `self.servers`: its qualified tool
list plus the transport capability `call_tool` (textual result or error). -/
structure Session where
  tools : List Tool
  callTool : String → Args → Except String String

/-- A native tool as listed by a provider before qualification
(`session.list_tools()` response items). -/
structure NativeTool where
  name : String
  description : String
  inputSchema : List String

/-- Qualification performed in `_connect_client`:
`name=f"{name}/{tool.name}"`. -/
def qualify (provider : String) (t : NativeTool) : Tool :=
  { name := provider ++ "/" ++ t.name
    description := t.description
    parameters := t.inputSchema }

/-- Connection configuration for one provider: its registry name, the native
tools its handshake lists, and its transport `call_tool` behaviour. -/
structure ServerConfig where
  name : String
  nativeTools : List NativeTool
  call : String → Args → Except String String

/-- `_connect_client`: build the session, qualifying every listed tool. -/
def connect_client (c : ServerConfig) : Session :=
  { tools := c.nativeTools.map (qualify c.name)
    callTool := c.call }

/-- The message history entries of `self.messages` (role + content dicts). -/
inductive Msg where
  | system (content : String)
  | user (content : String)
  | assistant (content : String)
  | tool (content : String)
deriving DecidableEq

/-- The client state of `OllamaMCPClient`: registry, active subset, message
history and the side-channel token (`self.user_token`). -/
structure OllamaMCPClient where
  servers : List (String × Session)
  selected_server : List (String × Session)
  messages : List Msg
  user_token : String

/-- `_connect_to_multiple_servers`: register every configured provider in
order and default the active selection to all of them
(`self.selected_server = self.servers`). -/
def connect_to_multiple_servers (cfg : List ServerConfig) : OllamaMCPClient :=
  let servers := cfg.map (fun c => (c.name, connect_client c))
  { servers := servers
    selected_server := servers
    messages := []
    user_token := "" }

/-- `get_tools`: concatenation of the selected sessions' tool lists in
(insertion) order — `chain.from_iterable(server.tools for server in
self.selected_server.values())`. -/
def OllamaMCPClient.get_tools (c : OllamaMCPClient) : List Tool :=
  (c.selected_server.map (fun p => p.2.tools)).flatten

/-- `select_server`: `{name: server for name, server in self.servers.items()
if name in servers}` — keep the registered sessions whose name occurs in the
requested list, silently ignoring the rest. -/
def OllamaMCPClient.select_server (c : OllamaMCPClient) (names : List String) :
    OllamaMCPClient :=
  { c with selected_server := c.servers.filter (fun p => names.contains p.1) }

/-- A tool-call request as produced by the model
(`Message.ToolCall.function`). -/
structure ToolCall where
  name : String
  args : Args
deriving DecidableEq

/-- The uncaught Python exceptions of `_tool_call`'s routing prologue:
`self.selected_server[split[0]]` raising `KeyError`, `split[1]` raising
`IndexError`.  Neither is inside the `try`, so both escape the generator. -/
inductive Crash where
  | keyError (key : String)
  | indexError
deriving DecidableEq

/-- Python `str.split('/')` on the character list: split at every `'/'`,
keeping empty segments, with `[""]` for the empty string. -/
def splitSlashL : List Char → List String
  | [] => [""]
  | c :: cs =>
    if c = '/' then "" :: splitSlashL cs
    else
      match splitSlashL cs with
      | [] => [String.mk [c]]
      | s :: rest => String.mk (c :: s.data) :: rest

/-- Python `tool.function.name.split("/")`. -/
def splitSlash (s : String) : List String := splitSlashL s.data

/-- Lines 250-252 of `ollama_client.py`: inject the side-channel token into
the arguments when `self.user_token` is truthy and the literal substring
`'token'` occurs in `str(tool_args)`. -/
def injectToken (token : String) (args : Args) : Args :=
  if token ≠ "" ∧ strContains "token" (renderArgs args) = true then
    dictSet args "token" (.str token)
  else args

/-- Repr of the pydantic `tool.function` object used in the error branch's
f-string `f"Error in tool: {tool.function}..."`. -/
def reprFunction (call : ToolCall) : String :=
  "name=\x27" ++ call.name ++ "\x27 arguments=" ++ renderArgs call.args

/-- The body of `_tool_call`'s per-call loop.  The split and the session
lookup happen before the `try`, so an unknown provider or a separator-less
name crashes; only the `session.call_tool` round-trip is guarded, its
failure encoded as an error-shaped text message. -/
def tool_call_one (sel : List (String × Session)) (token : String)
    (call : ToolCall) : Except Crash String :=
  match lookupKey sel ((splitSlash call.name).headD "") with
  | none => .error (.keyError ((splitSlash call.name).headD ""))
  | some session =>
    match (splitSlash call.name).get? 1 with
    | none => .error .indexError
    | some tool_name =>
      match session.callTool tool_name (injectToken token call.args) with
      | .ok text =>
        .ok ("tool: " ++ call.name ++ "\nargs: "
          ++ renderArgs (injectToken token call.args) ++ "\nreturn: " ++ text)
      | .error e =>
        .ok ("Error in tool: " ++ reprFunction call ++ "\nargs: "
          ++ renderArgs (injectToken token call.args) ++ "\n" ++ e)

/-- `_tool_call`: run the batch in request order, accumulating the textual
messages; a routing crash aborts the loop and discards what was gathered. -/
def tool_call (sel : List (String × Session)) (token : String) :
    List ToolCall → Except Crash (List String)
  | [] => .ok []
  | c :: cs =>
    match tool_call_one sel token c with
    | .error cr => .error cr
    | .ok m =>
      match tool_call sel token cs with
      | .error cr => .error cr
      | .ok ms => .ok (m :: ms)

/-- The roles of `ChatResponse` in `api_response.py`. -/
inductive Role where
  | assistant
  | tool
  | status
deriving DecidableEq

/-- The tool-status literals of `api_response.py`. -/
inductive ToolStatusKind where
  | calling
  | processing
  | completed
  | error
deriving DecidableEq

/-- The event type streamed to the consumer (`ChatResponse` TypedDict). -/
structure ChatResponse where
  role : Role
  content : String
  tool_name : Option String
  tool_status : Option ToolStatusKind
  tool_chain : Option (List String)
deriving DecidableEq

/-- `tool_chain if tool_chain else None`: an empty chain is sent as `None`. -/
def chainOpt (tc : List String) : Option (List String) :=
  if tc = [] then none else some tc

/-- The assistant-content event yielded for a stream part with content. -/
def assistantEv (tc : List String) (text : String) : ChatResponse :=
  { role := .assistant, content := text, tool_name := none,
    tool_status := none, tool_chain := chainOpt tc }

/-- The `ToolStatus(calling)` event yielded per requested call, tagged with
the extended chain `tool_chain + [tool_name]`. -/
def statusEv (tc : List String) (name : String) : ChatResponse :=
  { role := .status, content := "Calling tool: " ++ name,
    tool_name := some name, tool_status := some .calling,
    tool_chain := some (tc ++ [name]) }

/-- The tool-result event yielded per tool message, tagged with the incoming
(unextended) chain. -/
def toolEv (tc : List String) (msg : String) : ChatResponse :=
  { role := .tool, content := msg, tool_name := none,
    tool_status := none, tool_chain := chainOpt tc }

/-- One incremental fragment of the model stream: `part.message.content`
plus `part.message.tool_calls`. -/
structure StreamPart where
  content : String
  toolCalls : List ToolCall

/-- One model turn is the finite list of stream parts the chat call yields;
the whole model capability is a script: the list of turns successive
requests receive. -/
abbrev ModelTurn := List StreamPart

/-- The `if part.message.content: ... elif part.message.tool_calls:` body of
the stream-consumption loop for a single part: the events yielded, and
either the routing crash that escaped or the tool messages appended to
history together with the `tool_message_count` increment. -/
def processPart (sel : List (String × Session)) (token : String)
    (tc : List String) (p : StreamPart) :
    List ChatResponse × Except Crash (List Msg × Nat) :=
  if p.content ≠ "" then
    ([assistantEv tc p.content], .ok ([], 0))
  else if p.toolCalls ≠ [] then
    match tool_call sel token p.toolCalls with
    | .error cr => (p.toolCalls.map (fun call => statusEv tc call.name), .error cr)
    | .ok msgs =>
      (p.toolCalls.map (fun call => statusEv tc call.name) ++ msgs.map (toolEv tc),
       .ok (msgs.map Msg.tool, 1))
  else ([], .ok ([], 0))

/-- Consume one whole model turn part by part, concatenating events and
history appends; a crash keeps the events already yielded. -/
def processTurn (sel : List (String × Session)) (token : String)
    (tc : List String) : List StreamPart →
    List ChatResponse × Except Crash (List Msg × Nat)
  | [] => ([], .ok ([], 0))
  | p :: ps =>
    match processPart sel token tc p with
    | (evs, .error cr) => (evs, .error cr)
    | (evs, .ok (ms, n)) =>
      match processTurn sel token tc ps with
      | (evs', .error cr) => (evs ++ evs', .error cr)
      | (evs', .ok (ms', n')) => (evs ++ evs', .ok (ms ++ ms', n + n'))

/-- `_recursive_prompt`: consume the next model turn, append the tool
messages to history, and recurse with the same `tool_chain` exactly when
`tool_message_count > 0`; with no tool calls the loop returns.  Returns the
streamed events and the final history (or the crash that escaped). -/
def recursive_prompt (sel : List (String × Session)) (token : String)
    (tc : List String) : List ModelTurn → List Msg →
    List ChatResponse × Except Crash (List Msg)
  | [], h => ([], .ok h)
  | turn :: rest, h =>
    match processTurn sel token tc turn with
    | (evs, .error cr) => (evs, .error cr)
    | (evs, .ok (ms, n)) =>
      if n > 0 then
        (evs ++ (recursive_prompt sel token tc rest (h ++ ms)).1,
         (recursive_prompt sel token tc rest (h ++ ms)).2)
      else (evs, .ok (h ++ ms))

/-- `process_message`: append the user message, store the side-channel
token, and drive the loop from an empty tool chain. -/
def process_message (c : OllamaMCPClient) (message : String) (token : String)
    (script : List ModelTurn) : List ChatResponse × Except Crash (List Msg) :=
  recursive_prompt c.selected_server token [] script
    (c.messages ++ [Msg.user message])

/-! Concrete fixtures used by the counterexamples and witnesses: the two
providers of the spec's scenario (`wallet` with `topup`, `places` with
`nearby`). -/

/-- The `places` provider: one `nearby` tool, echoing its arguments. -/
def placesCfg : ServerConfig :=
  { name := "places"
    nativeTools :=
      [{ name := "nearby", description := "find nearby restaurants",
         inputSchema := ["lat", "lon"] }]
    call := fun _ args => .ok ("near:" ++ renderArgs args) }

/-- The `wallet` provider: one `topup` tool whose schema declares `token`. -/
def walletCfg : ServerConfig :=
  { name := "wallet"
    nativeTools :=
      [{ name := "topup", description := "top up balance",
         inputSchema := ["amount", "token"] }]
    call := fun _ args => .ok ("bal:" ++ renderArgs args) }

/-- A client connected to both demo providers (so `selected_server` defaults
to both). -/
def demoClient : OllamaMCPClient :=
  connect_to_multiple_servers [walletCfg, placesCfg]

/-! Basic lemmas about the dictionary, split, and rendering helpers. -/

/-- A successful association-list lookup exhibits a member. -/
theorem lookupKey_some_mem {α : Type} {l : List (String × α)} {k : String}
    {v : α} (h : lookupKey l k = some v) : (k, v) ∈ l := by
  induction l with
  | nil => simp [lookupKey] at h
  | cons hd tl ih =>
    obtain ⟨k', v'⟩ := hd
    by_cases hk : k' = k
    · subst hk
      simp [lookupKey] at h
      subst h
      exact List.mem_cons_self _ _
    · simp [lookupKey, hk] at h
      exact List.mem_cons_of_mem _ (ih h)

/-- A failed lookup means no member carries the key. -/
theorem lookupKey_eq_none {α : Type} {l : List (String × α)} {k : String} :
    lookupKey l k = none ↔ ∀ p ∈ l, p.1 ≠ k := by
  induction l with
  | nil => simp [lookupKey]
  | cons hd tl ih =>
    obtain ⟨k', v'⟩ := hd
    by_cases hk : k' = k
    · subst hk
      simp [lookupKey]
    · simp [lookupKey, hk, ih]

/-- `{**d, k: v}` makes `k` map to `v`. -/
theorem lookupKey_dictSet (l : Args) (k : String) (v : PyVal) :
    lookupKey (dictSet l k v) k = some v := by
  induction l with
  | nil => simp [dictSet, lookupKey]
  | cons hd tl ih =>
    obtain ⟨k', v'⟩ := hd
    by_cases hk : k' = k
    · subst hk
      simp [dictSet, lookupKey]
    · simp [dictSet, lookupKey, hk, ih]

/-- Splitting a qualified name whose qualifier is `'/'`-free recovers the
qualifier as the first segment. -/
theorem splitSlashL_append (pd : List Char) (td : List Char)
    (h : '/' ∉ pd) : splitSlashL (pd ++ '/' :: td) = String.mk pd :: splitSlashL td := by
  induction pd with
  | nil => simp [splitSlashL]
  | cons c cs ih =>
    have hc : ¬ c = '/' := fun hc => h (hc ▸ List.mem_cons_self c cs)
    have hcs : '/' ∉ cs := fun hm => h (List.mem_cons_of_mem _ hm)
    simp only [List.cons_append, splitSlashL, hc, if_false, List.append_eq]
    rw [ih hcs]

/-- `splitSlashL` never returns the empty list. -/
theorem splitSlashL_ne_nil (l : List Char) : splitSlashL l ≠ [] := by
  cases l with
  | nil => simp [splitSlashL]
  | cons c cs =>
    simp only [splitSlashL]
    by_cases hc : c = '/'
    · simp [hc]
    · simp only [hc, if_false]
      cases hs : splitSlashL cs with
      | nil => simp
      | cons s rest => simp

/-- A `'/'`-free character list splits into a single segment. -/
theorem splitSlashL_no_sep (l : List Char) (h : '/' ∉ l) :
    splitSlashL l = [String.mk l] := by
  induction l with
  | nil => simp [splitSlashL]
  | cons c cs ih =>
    have hc : ¬ c = '/' := fun hc => h (hc ▸ List.mem_cons_self c cs)
    have hcs : '/' ∉ cs := fun hm => h (List.mem_cons_of_mem _ hm)
    simp only [splitSlashL, hc, if_false]
    rw [ih hcs]

/-- Splitting a name with no separator at all yields the whole name as the
only segment. -/
theorem splitSlash_no_sep (s : String) (h : '/' ∉ s.data) :
    splitSlash s = [s] := by
  unfold splitSlash
  rw [splitSlashL_no_sep s.data h]

/-- The first segment of a qualified `provider ++ "/" ++ tool` name is the
provider, when the provider name is `'/'`-free. -/
theorem splitSlash_qualified (p t : String) (h : '/' ∉ p.data) :
    splitSlash (p ++ "/" ++ t) = p :: splitSlashL t.data := by
  unfold splitSlash
  have hd : (p ++ "/" ++ t).data = p.data ++ '/' :: t.data := by
    simp [String.data_append]
  rw [hd, splitSlashL_append p.data t.data h]

/-- The provider part of a qualified name: everything before the first
`'/'`. -/
def providerOf (s : String) : String :=
  String.mk (s.data.takeWhile (fun c => decide (c ≠ '/')))

/-- `takeWhile` of an all-true block followed by a failing head stops
exactly at the block. -/
theorem takeWhile_block (pr : Char → Bool) (l r : List Char) (x : Char)
    (hl : ∀ a ∈ l, pr a = true) (hx : pr x = false) :
    (l ++ x :: r).takeWhile pr = l := by
  induction l with
  | nil => simp [List.takeWhile, hx]
  | cons a as ih =>
    have ha : pr a = true := hl a (List.mem_cons_self a as)
    have has : ∀ b ∈ as, pr b = true := fun b hb => hl b (List.mem_cons_of_mem _ hb)
    simp only [List.cons_append, List.takeWhile, ha, List.append_eq]
    rw [ih has]

/-- The provider part of `p ++ "/" ++ t` is `p` whenever `p` is
`'/'`-free. -/
theorem providerOf_qualified (p t : String) (h : '/' ∉ p.data) :
    providerOf (p ++ "/" ++ t) = p := by
  unfold providerOf
  have hd : (p ++ "/" ++ t).data = p.data ++ '/' :: t.data := by
    simp [String.data_append]
  rw [hd]
  have hp : ∀ a ∈ p.data, (fun c => decide (c ≠ '/')) a = true := by
    intro a ha
    simp only [decide_eq_true_eq]
    intro hc
    exact h (hc ▸ ha)
  rw [takeWhile_block _ p.data t.data '/' hp (by simp)]

/-- Each entry's rendering occurs contiguously inside the rendering of any
dict containing it. -/
theorem renderEntry_infix_renderEntries (args : Args) (k : String) (v : PyVal)
    (h : (k, v) ∈ args) :
    (renderEntry k v).data <:+: (renderEntries args).data := by
  induction args with
  | nil => cases h
  | cons hd tl ih =>
    obtain ⟨k0, v0⟩ := hd
    rcases List.mem_cons.mp h with h1 | h1
    · cases h1
      cases tl with
      | nil => exact ⟨[], [], by simp [renderEntries]⟩
      | cons t ts =>
        refine ⟨[], (", " ++ renderEntries (t :: ts)).data, ?_⟩
        simp [renderEntries, String.data_append]
    · have htl : tl ≠ [] := by
        intro he
        rw [he] at h1
        cases h1
      obtain ⟨t, ts, rfl⟩ := List.exists_cons_of_ne_nil htl
      have hin := ih h1
      refine hin.trans ⟨(renderEntry k0 v0 ++ ", ").data, [], ?_⟩
      simp [renderEntries, String.data_append]

/-- The literal substring `token` occurs in the rendering of any dict that
binds the key `"token"`. -/
theorem strContains_token_of_key (args : Args) (v : PyVal)
    (h : (k, v) ∈ args) (hk : k = "token") :
    strContains "token" (renderArgs args) = true := by
  subst hk
  have h1 : ("token" : String).data <:+: (renderEntry "token" v).data := by
    refine ⟨("\x27" : String).data, ("\x27: " ++ renderVal v).data, ?_⟩
    simp [renderEntry, String.data_append]
  have h2 := renderEntry_infix_renderEntries args "token" v h
  have h3 : (renderEntries args).data <:+: (renderArgs args).data := by
    refine ⟨("\x7b" : String).data, ("\x7d" : String).data, ?_⟩
    simp [renderArgs, String.data_append]
  exact decide_eq_true ((h1.trans h2).trans h3)

/-- Modelled from the spec: "the tool's declared input schema contains a
`token`-shaped field" — the schema's field names include `token`.  This is
the injection condition the spec describes; the code never performs this
check, so the definition exists only to state claim C3 against it. -/
def specSchemaDeclaresToken (t : Tool) : Bool := t.parameters.contains "token"

/-- C10: the dispatcher's token-injection condition is exactly a substring
test on the stringified arguments — the side-channel token is injected
(setting the `token` binding, overriding a caller-supplied one) iff the
token is non-empty and the literal substring `token` occurs in
`str(tool_args)`; the declared schema is never consulted (it is not even an
input of the injection step). -/
theorem c10_injection_condition (token : String) (args : Args) :
    (token ≠ "" → strContains "token" (renderArgs args) = true →
      injectToken token args = dictSet args "token" (PyVal.str token))
    ∧ (strContains "token" (renderArgs args) = false →
      injectToken token args = args)
    ∧ (token = "" → injectToken token args = args) := by
  refine ⟨?_, ?_, ?_⟩
  · intro h1 h2
    simp [injectToken, h1, h2]
  · intro h2
    simp [injectToken, h2]
  · intro h1
    simp [injectToken, h1]

/-- C10 witness: with side-channel token `"T1"`, injection fires for
arguments whose rendering mentions `token` even only inside a value, and
does not fire when the model omitted the token argument and nothing else
renders the substring. -/
theorem c10_injection_condition_witness :
    injectToken "T1" [("note", PyVal.str "my token")]
      = dictSet [("note", PyVal.str "my token")] "token" (PyVal.str "T1")
    ∧ injectToken "T1" [("amount", PyVal.num 5)] = [("amount", PyVal.num 5)] :=
  ⟨(c10_injection_condition "T1" [("note", PyVal.str "my token")]).1
      (by decide) (by decide),
   (c10_injection_condition "T1" [("amount", PyVal.num 5)]).2.1 (by decide)⟩

/-- C3 counterexample: `wallet/topup` declares a `token` field in its input
schema and the side channel holds the non-empty token `"T1"`, yet a call
whose arguments do not mention `token` is dispatched with the arguments
unchanged — no token is injected, contradicting the schema-based injection
the claim states. -/
theorem c3_counterexample :
    specSchemaDeclaresToken
        (qualify "wallet" ⟨"topup", "top up balance", ["amount", "token"]⟩) = true
    ∧ (connect_client walletCfg).tools
      = [qualify "wallet" ⟨"topup", "top up balance", ["amount", "token"]⟩]
    ∧ ("T1" : String) ≠ ""
    ∧ lookupKey (injectToken "T1" [("amount", PyVal.num 5)]) "token" = none
    ∧ tool_call_one demoClient.selected_server "T1"
        ⟨"wallet/topup", [("amount", PyVal.num 5)]⟩
      = Except.ok
          ("tool: wallet/topup\nargs: \x7b\x27amount\x27: 5\x7d\nreturn: bal:\x7b\x27amount\x27: 5\x7d" : String) :=
  ⟨rfl, rfl, by decide, rfl, rfl⟩

/-- C3 (amended): injection is keyed on the rendered arguments, not on the
declared schema — whenever the side-channel token is non-empty and the
caller supplied any `token` argument, the dispatcher overrides it with the
side-channel value before the remote call. -/
theorem c3_amended (token : String) (args : Args) (v : PyVal)
    (ht : token ≠ "") (hv : lookupKey args "token" = some v) :
    lookupKey (injectToken token args) "token" = some (PyVal.str token) := by
  have hmem := lookupKey_some_mem hv
  have hc := strContains_token_of_key args v hmem rfl
  unfold injectToken
  rw [if_pos ⟨ht, hc⟩]
  exact lookupKey_dictSet args "token" (PyVal.str token)

/-- C3 witness: the model-supplied `token='bogus'` is replaced by the
side-channel `"T1"`. -/
theorem c3_amended_witness :
    lookupKey
        (injectToken "T1" [("amount", PyVal.num 5), ("token", PyVal.str "bogus")])
        "token"
      = some (PyVal.str "T1") :=
  c3_amended "T1" [("amount", PyVal.num 5), ("token", PyVal.str "bogus")]
    (PyVal.str "bogus") (by decide) rfl

/-- C5 counterexample: selecting `["places", "ghost"]` where `ghost` is not
a registered provider returns normally — the unknown name is silently
dropped and no error of any kind is raised, contradicting the claimed
`UnknownProviderError`. -/
theorem c5_counterexample :
    lookupKey demoClient.servers "ghost" = none
    ∧ (demoClient.select_server ["places", "ghost"]).selected_server
      = [("places", connect_client placesCfg)] := ⟨rfl, rfl⟩

/-- C5 (amended): `select_server` silently restricts the active set to the
registered sessions whose name was requested (registry order preserved,
unknown names ignored without any error — adding an unregistered name
changes nothing), and on connection the active set defaults to all
registered providers. -/
theorem c5_amended (c : OllamaMCPClient) (names : List String) (x : String)
    (cfg : List ServerConfig) (hx : lookupKey c.servers x = none) :
    (c.select_server names).selected_server
      = c.servers.filter (fun p => names.contains p.1)
    ∧ (c.select_server (x :: names)).selected_server
      = (c.select_server names).selected_server
    ∧ (connect_to_multiple_servers cfg).selected_server
      = (connect_to_multiple_servers cfg).servers := by
  refine ⟨rfl, ?_, rfl⟩
  show c.servers.filter _ = c.servers.filter _
  apply List.filter_congr
  intro p hp
  have hne : p.1 ≠ x := (lookupKey_eq_none.mp hx) p hp
  simp [List.contains_cons, hne]

/-- C5 witness: prepending the unregistered `ghost` to the requested names
leaves the selection unchanged. -/
theorem c5_amended_witness :
    (demoClient.select_server ["ghost", "places"]).selected_server
      = (demoClient.select_server ["places"]).selected_server :=
  (c5_amended demoClient ["places"] "ghost" [] rfl).2.1

/-- C1 counterexample: with only `places` active, a request for
`wallet/topup` (unknown provider), a request for the separator-less
`nearby`, and a separator-less request naming a registered provider all
abort `process_message` with an uncaught exception (`KeyError` /
`IndexError`) instead of yielding a textual tool-result: the drive loop
does crash on such requests. -/
theorem c1_counterexample :
    (process_message (demoClient.select_server ["places"]) "top up" ""
      [[⟨"", [⟨"wallet/topup", [("amount", PyVal.num 5)]⟩]⟩]]).2
      = Except.error (Crash.keyError "wallet")
    ∧ (process_message (demoClient.select_server ["places"]) "hi" ""
      [[⟨"", [⟨"nearby", []⟩]⟩]]).2
      = Except.error (Crash.keyError "nearby")
    ∧ (process_message demoClient "hi" ""
      [[⟨"", [⟨"places", []⟩]⟩]]).2
      = Except.error Crash.indexError := ⟨rfl, rfl, rfl⟩

/-- C1 (amended): dispatch-time routing failures are not recovered locally:
an unknown provider part raises `KeyError`, and a separator-less name whose
whole text names a registered provider raises `IndexError`, both escaping
`_tool_call` uncaught; only once routing succeeds does the dispatcher
always return a textual message, with invocation-time failures encoded as
error text rather than raised. -/
theorem c1_amended (sel : List (String × Session)) (token : String)
    (call : ToolCall) :
    (lookupKey sel ((splitSlash call.name).headD "") = none →
      tool_call_one sel token call
        = Except.error (Crash.keyError ((splitSlash call.name).headD "")))
    ∧ (∀ s, lookupKey sel ((splitSlash call.name).headD "") = some s →
        (splitSlash call.name).get? 1 = none →
        tool_call_one sel token call = Except.error Crash.indexError)
    ∧ (∀ s tn, lookupKey sel ((splitSlash call.name).headD "") = some s →
        (splitSlash call.name).get? 1 = some tn →
        tool_call_one sel token call = Except.ok
          (match s.callTool tn (injectToken token call.args) with
           | .ok text => "tool: " ++ call.name ++ "\nargs: "
               ++ renderArgs (injectToken token call.args) ++ "\nreturn: " ++ text
           | .error e => "Error in tool: " ++ reprFunction call ++ "\nargs: "
               ++ renderArgs (injectToken token call.args) ++ "\n" ++ e)) := by
  refine ⟨?_, ?_, ?_⟩
  · intro h
    unfold tool_call_one
    rw [h]
  · intro s hs h1
    unfold tool_call_one
    rw [hs, h1]
  · intro s tn hs htn
    unfold tool_call_one
    rw [hs, htn]
    dsimp only
    cases s.callTool tn (injectToken token call.args) with
    | ok t => rfl
    | error e => rfl

/-- C1 witness: a well-routed call always comes back as an `ok` textual
message. -/
theorem c1_amended_witness :
    tool_call_one demoClient.selected_server "" ⟨"places/nearby", []⟩
      = Except.ok ("tool: places/nearby\nargs: \x7b\x7d\nreturn: near:\x7b\x7d" : String) := by
  have h := (c1_amended demoClient.selected_server "" ⟨"places/nearby", []⟩).2.2
    (connect_client placesCfg) "nearby" rfl rfl
  exact h.trans rfl

/-- A turn whose parts carry no tool-call requests streams only the
assistant chunks of its non-empty contents, appends nothing to history, and
counts zero tool dispatches. -/
theorem processTurn_no_tools (sel : List (String × Session)) (token : String)
    (tc : List String) (parts : List StreamPart)
    (h : ∀ p ∈ parts, p.toolCalls = []) :
    processTurn sel token tc parts
      = (parts.filterMap (fun p =>
          if p.content ≠ "" then some (assistantEv tc p.content) else none),
         Except.ok ([], 0)) := by
  induction parts with
  | nil => rfl
  | cons p ps ih =>
    have hp : p.toolCalls = [] := h p (List.mem_cons_self p ps)
    have hps : ∀ q ∈ ps, q.toolCalls = [] :=
      fun q hq => h q (List.mem_cons_of_mem _ hq)
    by_cases hc : p.content = ""
    · simp [processTurn, processPart, hp, hc, ih hps]
    · simp [processTurn, processPart, hp, hc, ih hps]

/-- C2 (amended): a user message the model answers without tool calls
yields a stream consisting solely of assistant-content events, and leaves
history extended by exactly the one new User message — the assistant
fragments are streamed to the consumer but are NOT appended to
`self.messages`. -/
theorem c2_amended (c : OllamaMCPClient) (message token : String)
    (turn : ModelTurn) (rest : List ModelTurn)
    (h : ∀ p ∈ turn, p.toolCalls = []) :
    process_message c message token (turn :: rest)
      = (turn.filterMap (fun p =>
          if p.content ≠ "" then some (assistantEv [] p.content) else none),
         Except.ok (c.messages ++ [Msg.user message]))
    ∧ ∀ e ∈ (process_message c message token (turn :: rest)).1,
        e.role = Role.assistant := by
  have ht := processTurn_no_tools c.selected_server token [] turn h
  have hmain : process_message c message token (turn :: rest)
      = (turn.filterMap (fun p =>
          if p.content ≠ "" then some (assistantEv [] p.content) else none),
         Except.ok (c.messages ++ [Msg.user message])) := by
    unfold process_message recursive_prompt
    rw [ht]
    simp
  refine ⟨hmain, ?_⟩
  intro e he
  rw [hmain] at he
  simp only [List.mem_filterMap] at he
  obtain ⟨p, _, hpe⟩ := he
  by_cases hc : p.content = ""
  · simp [hc] at hpe
  · simp only [hc, ne_eq, not_false_eq_true, if_true, Option.some.injEq] at hpe
    rw [← hpe]
    rfl

/-- C2 witness: a concrete two-chunk answer with zero tool calls. -/
theorem c2_amended_witness :
    process_message { demoClient with messages := [Msg.system "sys"] }
        "hi" "" [[⟨"Hal", []⟩, ⟨"o!", []⟩]]
      = ([assistantEv [] "Hal", assistantEv [] "o!"],
         Except.ok [Msg.system "sys", Msg.user "hi"]) :=
  ((c2_amended { demoClient with messages := [Msg.system "sys"] } "hi" ""
    [⟨"Hal", []⟩, ⟨"o!", []⟩] [] (by decide)).1).trans (by rfl)

/-- C2 counterexample: for the very input above, the accumulated assistant
fragments never reach the message history — the history holds only the new
User message, contradicting the claim that it also contains the Assistant
fragments of the answer. -/
theorem c2_counterexample :
    (process_message { demoClient with messages := [Msg.system "sys"] }
        "hi" "" [[⟨"hello", []⟩]]).2
      = Except.ok [Msg.system "sys", Msg.user "hi"]
    ∧ Msg.assistant "hello" ∉ [Msg.system "sys", Msg.user "hi"]
    ∧ (process_message { demoClient with messages := [Msg.system "sys"] }
        "hi" "" [[⟨"hello", []⟩]]).1
      = [assistantEv [] "hello"] :=
  ⟨rfl, by decide, rfl⟩

/-- Every event a single stream part yields is an assistant chunk, a
calling status, or a tool-result event, all built over the incoming
chain `tc`. -/
theorem processPart_events (sel : List (String × Session)) (token : String)
    (tc : List String) (p : StreamPart) :
    ∀ e ∈ (processPart sel token tc p).1,
      (∃ s, e = assistantEv tc s) ∨ (∃ n, e = statusEv tc n)
        ∨ (∃ m, e = toolEv tc m) := by
  intro e he
  unfold processPart at he
  by_cases hc : p.content ≠ ""
  · rw [if_pos hc] at he
    simp only [List.mem_singleton] at he
    exact Or.inl ⟨p.content, he⟩
  · rw [if_neg hc] at he
    by_cases htc : p.toolCalls ≠ []
    · rw [if_pos htc] at he
      rcases hr : tool_call sel token p.toolCalls with cr | msgs
      · rw [hr] at he
        simp only [List.mem_map] at he
        obtain ⟨call, _, rfl⟩ := he
        exact Or.inr (Or.inl ⟨call.name, rfl⟩)
      · rw [hr] at he
        rcases List.mem_append.mp he with h1 | h1
        · simp only [List.mem_map] at h1
          obtain ⟨call, _, rfl⟩ := h1
          exact Or.inr (Or.inl ⟨call.name, rfl⟩)
        · simp only [List.mem_map] at h1
          obtain ⟨m, _, rfl⟩ := h1
          exact Or.inr (Or.inr ⟨m, rfl⟩)
    · rw [if_neg htc] at he
      cases he

/-- An event of a turn comes from one of its parts (or from the batch the
part dispatched). -/
theorem processTurn_events_cons (sel : List (String × Session)) (token : String)
    (tc : List String) (p : StreamPart) (ps : List StreamPart) :
    ∀ e ∈ (processTurn sel token tc (p :: ps)).1,
      e ∈ (processPart sel token tc p).1 ∨ e ∈ (processTurn sel token tc ps).1 := by
  intro e he
  unfold processTurn at he
  rcases hp : processPart sel token tc p with ⟨evs, r⟩
  rw [hp] at he
  cases r with
  | error cr => exact Or.inl he
  | ok msn =>
    obtain ⟨ms, n⟩ := msn
    rcases hq : processTurn sel token tc ps with ⟨evs', r'⟩
    rw [hq] at he
    cases r' with
    | error cr =>
      rcases List.mem_append.mp he with h1 | h1
      · exact Or.inl h1
      · exact Or.inr h1
    | ok msn' =>
      obtain ⟨ms', n'⟩ := msn'
      rcases List.mem_append.mp he with h1 | h1
      · exact Or.inl h1
      · exact Or.inr h1

/-- Every event of a whole turn is an assistant chunk, a calling status, or
a tool-result event over the incoming chain. -/
theorem processTurn_events (sel : List (String × Session)) (token : String)
    (tc : List String) (parts : List StreamPart) :
    ∀ e ∈ (processTurn sel token tc parts).1,
      (∃ s, e = assistantEv tc s) ∨ (∃ n, e = statusEv tc n)
        ∨ (∃ m, e = toolEv tc m) := by
  induction parts with
  | nil => intro e he; cases he
  | cons p ps ih =>
    intro e he
    rcases processTurn_events_cons sel token tc p ps e he with h1 | h1
    · exact processPart_events sel token tc p e h1
    · exact ih e h1

/-- C4 counterexample: at depth 0 the `ToolStatus(calling)` event carries
the extended chain `["places/nearby"]` but the `ToolResult` event of the
very same call carries `None` (the unextended empty chain), not
`toolChain+[name]` as claimed. -/
theorem c4_counterexample :
    (processTurn (demoClient.select_server ["places"]).selected_server "" []
        [⟨"", [⟨"places/nearby", [("lat", PyVal.num 1)]⟩]⟩]).1
      = [statusEv [] "places/nearby",
         toolEv [] "tool: places/nearby\nargs: \x7b\x27lat\x27: 1\x7d\nreturn: near:\x7b\x27lat\x27: 1\x7d"]
    ∧ (statusEv [] "places/nearby").tool_chain = some ["places/nearby"]
    ∧ (toolEv []
        "tool: places/nearby\nargs: \x7b\x27lat\x27: 1\x7d\nreturn: near:\x7b\x27lat\x27: 1\x7d").tool_chain
      = none
    ∧ (toolEv []
        "tool: places/nearby\nargs: \x7b\x27lat\x27: 1\x7d\nreturn: near:\x7b\x27lat\x27: 1\x7d").tool_chain
      ≠ some ([] ++ ["places/nearby"]) :=
  ⟨rfl, rfl, rfl, by decide⟩

/-- C4 (amended): within a turn driven at chain `tc`, every tool-result
event is tagged with the incoming unextended chain (sent as `None` when the
chain is empty), while every `ToolStatus(calling)` event is tagged with
`tc + [name]` for its own tool name. -/
theorem c4_amended (sel : List (String × Session)) (token : String)
    (tc : List String) (parts : List StreamPart) :
    ∀ e ∈ (processTurn sel token tc parts).1,
      (e.role = Role.tool → e.tool_chain = chainOpt tc)
      ∧ (e.tool_status = some ToolStatusKind.calling →
          ∃ n, e.tool_name = some n ∧ e.tool_chain = some (tc ++ [n])) := by
  intro e he
  rcases processTurn_events sel token tc parts e he with ⟨s, rfl⟩ | ⟨n, rfl⟩ | ⟨m, rfl⟩
  · exact ⟨fun h => by simp [assistantEv] at h, fun h => by simp [assistantEv] at h⟩
  · exact ⟨fun h => by simp [statusEv] at h, fun _ => ⟨n, rfl, rfl⟩⟩
  · exact ⟨fun _ => rfl, fun h => by simp [toolEv] at h⟩

/-- C4 witness: a concrete tool-result event of a depth-1 turn carries the
incoming chain `["x"]`, and the concrete calling status carries the
extended chain. -/
theorem c4_amended_witness :
    (toolEv ["x"] "tool: places/nearby\nargs: \x7b\x7d\nreturn: near:\x7b\x7d").tool_chain
      = chainOpt ["x"]
    ∧ ∃ n, (statusEv ["x"] "places/nearby").tool_name = some n
        ∧ (statusEv ["x"] "places/nearby").tool_chain = some (["x"] ++ [n]) :=
  ⟨((c4_amended (demoClient.select_server ["places"]).selected_server "" ["x"]
      [⟨"", [⟨"places/nearby", []⟩]⟩]
      (toolEv ["x"] "tool: places/nearby\nargs: \x7b\x7d\nreturn: near:\x7b\x7d")
      (by decide)).1) rfl,
   ((c4_amended (demoClient.select_server ["places"]).selected_server "" ["x"]
      [⟨"", [⟨"places/nearby", []⟩]⟩]
      (statusEv ["x"] "places/nearby")
      (by decide)).2) rfl⟩

/-- `true` iff some `calling` status event occurs strictly after some
tool-result event in the list — i.e. the "all statuses before any result"
ordering is violated. -/
def statusAfterResult : List ChatResponse → Bool
  | [] => false
  | e :: rest =>
    (decide (e.role = Role.tool)
      && rest.any (fun e2 => decide (e2.tool_status = some ToolStatusKind.calling)))
    || statusAfterResult rest

/-- C6 counterexample: a single model turn whose stream carries tool-call
requests in two separate fragments interleaves statuses and results — the
second fragment's `ToolStatus(calling)` is emitted after the first
fragment's `ToolResult`, so not all N calling statuses of the turn precede
every result of the turn. -/
theorem c6_counterexample :
    (processTurn (demoClient.select_server ["places"]).selected_server "" []
        [⟨"", [⟨"places/nearby", []⟩]⟩,
         ⟨"", [⟨"places/nearby", [("lat", PyVal.num 2)]⟩]⟩]).1
      = [statusEv [] "places/nearby",
         toolEv [] "tool: places/nearby\nargs: \x7b\x7d\nreturn: near:\x7b\x7d",
         statusEv [] "places/nearby",
         toolEv [] "tool: places/nearby\nargs: \x7b\x27lat\x27: 2\x7d\nreturn: near:\x7b\x27lat\x27: 2\x7d"]
    ∧ statusAfterResult
        (processTurn (demoClient.select_server ["places"]).selected_server "" []
          [⟨"", [⟨"places/nearby", []⟩]⟩,
           ⟨"", [⟨"places/nearby", [("lat", PyVal.num 2)]⟩]⟩]).1 = true :=
  ⟨rfl, by decide⟩

/-- C6 (amended): the first-before-result ordering holds per stream
fragment (batch): a fragment carrying N tool-call requests yields exactly
its N calling statuses, in request order, followed only by tool-result
events. -/
theorem c6_amended (sel : List (String × Session)) (token : String)
    (tc : List String) (p : StreamPart)
    (h1 : p.content = "") (h2 : p.toolCalls ≠ []) :
    ∃ tail,
      (processPart sel token tc p).1
        = p.toolCalls.map (fun call => statusEv tc call.name) ++ tail
      ∧ (∀ e ∈ tail, e.role = Role.tool)
      ∧ (p.toolCalls.map (fun call => statusEv tc call.name)).length
          = p.toolCalls.length := by
  unfold processPart
  rw [if_neg (by simp [h1]), if_pos h2]
  rcases hr : tool_call sel token p.toolCalls with cr | msgs
  · refine ⟨[], by simp, ?_, by simp⟩
    intro e he
    cases he
  · refine ⟨msgs.map (toolEv tc), rfl, ?_, by simp⟩
    intro e he
    simp only [List.mem_map] at he
    obtain ⟨m, _, rfl⟩ := he
    rfl

/-- C6 witness: a fragment with two requests yields the two calling
statuses first, in order, then only results. -/
theorem c6_amended_witness :
    ∃ tail,
      (processPart (demoClient.select_server ["places"]).selected_server "" []
          ⟨"", [⟨"places/nearby", []⟩,
                ⟨"places/nearby", [("lat", PyVal.num 2)]⟩]⟩).1
        = ([⟨"places/nearby", []⟩,
            ⟨"places/nearby", [("lat", PyVal.num 2)]⟩] : List ToolCall).map
            (fun call => statusEv [] call.name) ++ tail
      ∧ (∀ e ∈ tail, e.role = Role.tool)
      ∧ (([⟨"places/nearby", []⟩,
           ⟨"places/nearby", [("lat", PyVal.num 2)]⟩] : List ToolCall).map
          (fun call => statusEv [] call.name)).length
        = ([⟨"places/nearby", []⟩,
            ⟨"places/nearby", [("lat", PyVal.num 2)]⟩] : List ToolCall).length :=
  c6_amended (demoClient.select_server ["places"]).selected_server "" []
    ⟨"", [⟨"places/nearby", []⟩, ⟨"places/nearby", [("lat", PyVal.num 2)]⟩]⟩
    rfl (by decide)

/-- A part's dispatch count is positive exactly when the part carried
tool-call requests (no assistant text and a non-empty request list). -/
theorem processPart_count (sel : List (String × Session)) (token : String)
    (tc : List String) (p : StreamPart) (ms1 : List Msg) (n1 : Nat)
    (h : (processPart sel token tc p).2 = Except.ok (ms1, n1)) :
    0 < n1 ↔ p.content = "" ∧ p.toolCalls ≠ [] := by
  unfold processPart at h
  by_cases hc : p.content ≠ ""
  · rw [if_pos hc] at h
    simp only [Except.ok.injEq, Prod.mk.injEq] at h
    simp [← h.2, hc]
  · rw [if_neg hc] at h
    by_cases htc : p.toolCalls ≠ []
    · rw [if_pos htc] at h
      rcases hr : tool_call sel token p.toolCalls with cr | msgs
      · rw [hr] at h
        cases h
      · rw [hr] at h
        simp only [Except.ok.injEq, Prod.mk.injEq] at h
        simp [← h.2, not_not.mp hc, htc]
    · rw [if_neg htc] at h
      simp only [Except.ok.injEq, Prod.mk.injEq] at h
      simp [← h.2, htc]

/-- A turn's dispatch count is positive exactly when some part of the turn
carried tool-call requests. -/
theorem processTurn_count (sel : List (String × Session)) (token : String)
    (tc : List String) :
    ∀ (parts : List StreamPart) (ms : List Msg) (n : Nat),
      (processTurn sel token tc parts).2 = Except.ok (ms, n) →
      (0 < n ↔ ∃ p ∈ parts, p.content = "" ∧ p.toolCalls ≠ []) := by
  intro parts
  induction parts with
  | nil =>
    intro ms n h
    simp only [processTurn, Except.ok.injEq, Prod.mk.injEq] at h
    simp [← h.2]
  | cons p ps ih =>
    intro ms n h
    unfold processTurn at h
    rcases hp : processPart sel token tc p with ⟨evs, r⟩
    rw [hp] at h
    cases r with
    | error cr => cases h
    | ok msn =>
      obtain ⟨ms1, n1⟩ := msn
      rcases hq : processTurn sel token tc ps with ⟨evs', r'⟩
      rw [hq] at h
      cases r' with
      | error cr => cases h
      | ok msn' =>
        obtain ⟨ms2, n2⟩ := msn'
        simp only [Except.ok.injEq, Prod.mk.injEq] at h
        have h1 := processPart_count sel token tc p ms1 n1 (by rw [hp])
        have h2 := ih ms2 n2 (by rw [hq])
        rw [← h.2, add_pos_iff]
        simp only [List.mem_cons]
        constructor
        · rintro (ha | hb)
          · exact ⟨p, Or.inl rfl, h1.mp ha⟩
          · obtain ⟨q, hq1, hq2⟩ := h2.mp hb
            exact ⟨q, Or.inr hq1, hq2⟩
        · rintro ⟨q, hq1 | hq1, hq2⟩
          · subst hq1
            exact Or.inl (h1.mpr hq2)
          · exact Or.inr (h2.mpr ⟨q, hq1, hq2⟩)

/-- Unfolding equation of `_recursive_prompt` on a non-empty script. -/
theorem recursive_prompt_cons (sel : List (String × Session)) (token : String)
    (tc : List String) (turn : ModelTurn) (rest : List ModelTurn)
    (h : List Msg) :
    recursive_prompt sel token tc (turn :: rest) h
      = match processTurn sel token tc turn with
        | (evs, .error cr) => (evs, .error cr)
        | (evs, .ok (ms, n)) =>
          if n > 0 then
            (evs ++ (recursive_prompt sel token tc rest (h ++ ms)).1,
             (recursive_prompt sel token tc rest (h ++ ms)).2)
          else (evs, .ok (h ++ ms)) := rfl

/-- C9: after consuming a model turn that dispatched at least one tool-call
batch, the loop recurses into a new model request with the same unextended
tool chain and the tool messages appended to history; after a turn with
zero tool calls it returns the events and history without issuing any
further model request (the rest of the script is untouched). -/
theorem c9_recursion (sel : List (String × Session)) (token : String)
    (tc : List String) (turn : ModelTurn) (rest : List ModelTurn)
    (h : List Msg) (ms : List Msg) (n : Nat)
    (hp : (processTurn sel token tc turn).2 = Except.ok (ms, n)) :
    (0 < n → recursive_prompt sel token tc (turn :: rest) h
        = ((processTurn sel token tc turn).1
            ++ (recursive_prompt sel token tc rest (h ++ ms)).1,
           (recursive_prompt sel token tc rest (h ++ ms)).2))
    ∧ (n = 0 → recursive_prompt sel token tc (turn :: rest) h
        = ((processTurn sel token tc turn).1, Except.ok (h ++ ms)))
    ∧ (0 < n ↔ ∃ p ∈ turn, p.content = "" ∧ p.toolCalls ≠ []) := by
  refine ⟨?_, ?_, processTurn_count sel token tc turn ms n hp⟩
  · intro h1
    rcases hq : processTurn sel token tc turn with ⟨evs, r⟩
    rw [hq] at hp
    simp only at hp
    subst hp
    rw [recursive_prompt_cons, hq]
    dsimp only
    rw [if_pos h1]
  · intro h1
    subst h1
    rcases hq : processTurn sel token tc turn with ⟨evs, r⟩
    rw [hq] at hp
    simp only at hp
    subst hp
    rw [recursive_prompt_cons, hq]
    dsimp only
    rw [if_neg (by decide)]

/-- C9 witness: a turn with one dispatched call recurses into the second
turn of the script with the same empty chain; the final history gained the
user-visible tool message, and the second turn's answer was streamed. -/
theorem c9_recursion_witness :
    recursive_prompt (demoClient.select_server ["places"]).selected_server "" []
        [[⟨"", [⟨"places/nearby", []⟩]⟩], [⟨"done", []⟩]] [Msg.user "u"]
      = ([statusEv [] "places/nearby",
          toolEv [] "tool: places/nearby\nargs: \x7b\x7d\nreturn: near:\x7b\x7d",
          assistantEv [] "done"],
         Except.ok [Msg.user "u",
           Msg.tool "tool: places/nearby\nargs: \x7b\x7d\nreturn: near:\x7b\x7d"]) :=
  (((c9_recursion (demoClient.select_server ["places"]).selected_server "" []
      [⟨"", [⟨"places/nearby", []⟩]⟩] [[⟨"done", []⟩]] [Msg.user "u"]
      [Msg.tool "tool: places/nearby\nargs: \x7b\x7d\nreturn: near:\x7b\x7d"] 1 rfl).1)
    (by decide)).trans (by rfl)

/-- C8: a successfully routed and successfully invoked tool call produces
exactly the `tool: .. / args: .. / return: ..` message — and that message
contains the qualified tool name, the rendering of the arguments actually
sent (side-channel injection included), and the provider's raw text, each
as a contiguous substring. -/
theorem c8_history_message (sel : List (String × Session)) (token : String)
    (call : ToolCall) (s : Session) (tn txt : String)
    (hs : lookupKey sel ((splitSlash call.name).headD "") = some s)
    (htn : (splitSlash call.name).get? 1 = some tn)
    (hok : s.callTool tn (injectToken token call.args) = Except.ok txt) :
    tool_call_one sel token call
      = Except.ok ("tool: " ++ call.name ++ "\nargs: "
          ++ renderArgs (injectToken token call.args) ++ "\nreturn: " ++ txt)
    ∧ call.name.data <:+: ("tool: " ++ call.name ++ "\nargs: "
          ++ renderArgs (injectToken token call.args) ++ "\nreturn: " ++ txt).data
    ∧ (renderArgs (injectToken token call.args)).data
        <:+: ("tool: " ++ call.name ++ "\nargs: "
          ++ renderArgs (injectToken token call.args) ++ "\nreturn: " ++ txt).data
    ∧ txt.data <:+: ("tool: " ++ call.name ++ "\nargs: "
          ++ renderArgs (injectToken token call.args) ++ "\nreturn: " ++ txt).data := by
  refine ⟨?_, ?_, ?_, ?_⟩
  · unfold tool_call_one
    rw [hs, htn]
    dsimp only
    rw [hok]
  · exact ⟨("tool: " : String).data,
      ("\nargs: " ++ renderArgs (injectToken token call.args)
        ++ "\nreturn: " ++ txt).data,
      by simp [String.data_append]⟩
  · exact ⟨("tool: " ++ call.name ++ "\nargs: " : String).data,
      ("\nreturn: " ++ txt).data,
      by simp [String.data_append]⟩
  · exact ⟨("tool: " ++ call.name ++ "\nargs: "
        ++ renderArgs (injectToken token call.args) ++ "\nreturn: " : String).data,
      ([] : List Char),
      by simp [String.data_append]⟩

/-- C8 witness: the concrete `wallet/topup` call with an injected token. -/
theorem c8_history_message_witness :
    tool_call_one demoClient.selected_server "T1"
        ⟨"wallet/topup", [("amount", PyVal.num 5), ("token", PyVal.str "bogus")]⟩
      = Except.ok ("tool: " ++ "wallet/topup" ++ "\nargs: "
          ++ renderArgs (injectToken "T1"
              [("amount", PyVal.num 5), ("token", PyVal.str "bogus")])
          ++ "\nreturn: " ++ "bal:\x7b\x27amount\x27: 5, \x27token\x27: \x27T1\x27\x7d") :=
  (c8_history_message demoClient.selected_server "T1"
    ⟨"wallet/topup", [("amount", PyVal.num 5), ("token", PyVal.str "bogus")]⟩
    (connect_client walletCfg) "topup"
    "bal:\x7b\x27amount\x27: 5, \x27token\x27: \x27T1\x27\x7d" rfl rfl rfl).1

/-- Appending on the right of a fixed string is injective. -/
theorem string_append_left_inj (a : String) :
    Function.Injective (fun s => a ++ s) := by
  intro s1 s2 h12
  have h := congrArg String.data h12
  simp only [String.data_append] at h
  exact String.ext (List.append_cancel_left h)

/-- C7: for providers with distinct `'/'`-free names, each advertising
tools with pairwise-distinct names, the catalog of the current selection is
the concatenation of the selected sessions' qualified tool lists in
registry-insertion order, contains no duplicate qualified names, and every
entry's provider part is one of the currently requested names — tools of a
deselected provider are gone on the very next `get_tools` call. -/
theorem c7_catalog (cfg : List ServerConfig) (names : List String)
    (hn : (cfg.map (fun c => c.name)).Nodup)
    (hs : ∀ c ∈ cfg, '/' ∉ c.name.data)
    (ht : ∀ c ∈ cfg, (c.nativeTools.map (fun t => t.name)).Nodup) :
    ((connect_to_multiple_servers cfg).select_server names).get_tools
      = ((cfg.filter (fun c => names.contains c.name)).map
          (fun c => c.nativeTools.map (qualify c.name))).flatten
    ∧ ((((connect_to_multiple_servers cfg).select_server names).get_tools).map
        (fun t => t.name)).Nodup
    ∧ ∀ t ∈ ((connect_to_multiple_servers cfg).select_server names).get_tools,
        names.contains (providerOf t.name) = true := by
  have ha : ((connect_to_multiple_servers cfg).select_server names).get_tools
      = ((cfg.filter (fun c => names.contains c.name)).map
          (fun c => c.nativeTools.map (qualify c.name))).flatten := by
    simp only [OllamaMCPClient.get_tools, OllamaMCPClient.select_server,
      connect_to_multiple_servers, connect_client, List.filter_map,
      List.map_map]
    rfl
  refine ⟨ha, ?_, ?_⟩
  · rw [ha, List.map_flatten, List.map_map]
    have hfun : ((fun l => List.map (fun t => t.name) l)
          ∘ fun c => c.nativeTools.map (qualify c.name))
        = fun c : ServerConfig =>
            (c.nativeTools.map (fun t => t.name)).map
              (fun s => (c.name ++ "/") ++ s) := by
      funext c
      simp only [Function.comp_apply, List.map_map]
      rfl
    rw [hfun]
    rw [List.nodup_flatten]
    constructor
    · intro l hl
      rw [List.mem_map] at hl
      obtain ⟨c, hc, rfl⟩ := hl
      exact ((ht c (List.mem_of_mem_filter hc)).map
        (string_append_left_inj (c.name ++ "/")))
    · have hnd : ((cfg.filter (fun c => names.contains c.name)).map
          (fun c => c.name)).Nodup :=
        List.Nodup.sublist
          (List.Sublist.map (fun c => c.name) (List.filter_sublist cfg)) hn
      have hpw : List.Pairwise (fun a b : ServerConfig => a.name ≠ b.name)
          (cfg.filter (fun c => names.contains c.name)) :=
        List.pairwise_map.mp hnd
      rw [List.pairwise_map]
      refine List.Pairwise.imp_of_mem ?_ hpw
      intro a b hma hmb hne
      intro x hx1 hx2
      rw [List.mem_map] at hx1 hx2
      obtain ⟨s1, _, rfl⟩ := hx1
      obtain ⟨s2, _, h21⟩ := hx2
      have hpa : providerOf ((a.name ++ "/") ++ s1) = a.name :=
        providerOf_qualified a.name s1 (hs a (List.mem_of_mem_filter hma))
      have hpb : providerOf ((b.name ++ "/") ++ s2) = b.name :=
        providerOf_qualified b.name s2 (hs b (List.mem_of_mem_filter hmb))
      rw [h21] at hpb
      exact hne (hpa ▸ hpb ▸ rfl)
  · intro t htmem
    rw [ha, List.mem_flatten] at htmem
    obtain ⟨l, hl, htl⟩ := htmem
    rw [List.mem_map] at hl
    obtain ⟨c, hc, rfl⟩ := hl
    rw [List.mem_map] at htl
    obtain ⟨nt, _, rfl⟩ := htl
    have hp : providerOf (qualify c.name nt).name = c.name :=
      providerOf_qualified c.name nt.name (hs c (List.mem_of_mem_filter hc))
    rw [hp]
    exact (List.mem_filter.mp hc).2

/-- C7 witness: both demo providers registered, only `places` selected —
the catalog is exactly the one qualified `places/nearby` descriptor. -/
theorem c7_catalog_witness :
    ((connect_to_multiple_servers [walletCfg, placesCfg]).select_server
        ["places"]).get_tools
      = (([walletCfg, placesCfg].filter
          (fun c => ["places"].contains c.name)).map
          (fun c => c.nativeTools.map (qualify c.name))).flatten
    ∧ (((connect_to_multiple_servers [walletCfg, placesCfg]).select_server
        ["places"]).get_tools.map (fun t => t.name)).Nodup
    ∧ ∀ t ∈ ((connect_to_multiple_servers [walletCfg, placesCfg]).select_server
        ["places"]).get_tools,
        (["places"] : List String).contains (providerOf t.name) = true :=
  c7_catalog [walletCfg, placesCfg] ["places"] (by decide) (by decide)
    (by decide)
